import Mathlib

/-!
Shallow embedding of the devdonalds cookbook service (the complete variant,
src/unnamed/part_000) together with the string-normalization helper of the
template variant (src/backend/ts_template/devdonalds.ts).

JS `Map` objects are modelled as insertion-ordered association lists:
`set` updates an existing key in place and otherwise appends, `get` finds the
entry with the given key, and iteration (`entries()`, `for ... of`) is list
order.  JS numbers are modelled as rationals (`ℚ`); the recursion of
`getRecipeIngredients` (which the source does not guard against cycles) is
modelled with an explicit fuel parameter bounding the recursion depth:
fuel is a pure modelling device, any acyclic resolution succeeds for all
sufficiently large fuel.
-/

namespace Devdonalds

/-- One element of a recipe's `requiredItems` array: `{ name, quantity }`. -/
structure RequiredItem where
  name : String
  quantity : ℚ
deriving DecidableEq, Repr

/-- A cookbook recipe: `{ type: "recipe", name, requiredItems }`. -/
structure Recipe where
  name : String
  requiredItems : List RequiredItem
deriving DecidableEq, Repr

/-- A cookbook ingredient: `{ type: "ingredient", name, cookTime }`. -/
structure Ingredient where
  name : String
  cookTime : ℚ
deriving DecidableEq, Repr

/-- The discriminated union `cookbookEntrySchema` over recipes and ingredients. -/
inductive CookbookEntry where
  | recipe (r : Recipe)
  | ingredient (i : Ingredient)
deriving DecidableEq, Repr

/-- Lookup in an association list, modelling `Map.prototype.get`. -/
def getEntry {α : Type} : List (String × α) → String → Option α
  | [], _ => none
  | e :: rest, k => if e.1 = k then some e.2 else getEntry rest k

/-- Update-or-append in an association list, modelling `Map.prototype.set`
(an existing key keeps its position, a new key is appended at the end). -/
def setEntry {α : Type} : List (String × α) → String → α → List (String × α)
  | [], k, v => [(k, v)]
  | e :: rest, k, v => if e.1 = k then (k, v) :: rest else e :: setEntry rest k v

/-- The mutable `cookbook` object: `{ recipes: Map, ingredients: Map }`. -/
structure Cookbook where
  recipes : List (String × Recipe)
  ingredients : List (String × Ingredient)
deriving DecidableEq, Repr

/-- The initial store: both maps empty. -/
def emptyCookbook : Cookbook := ⟨[], []⟩

/-- Source `addToMapEntry`: `map.set(entry, (map.get(entry) ?? 0) + quantity)`. -/
def addToMapEntry (entry : String) (quantity : ℚ) (map : List (String × ℚ)) :
    List (String × ℚ) :=
  setEntry map entry ((getEntry map entry).getD 0 + quantity)

/-- One pass of the `for (const requiredItem of recipe.requiredItems)` loop of
`getRecipeIngredients`, with the recursive call abstracted as `inner`:
a required item that is a known ingredient is added to the accumulator, a known
recipe is resolved recursively and its entries are added scaled by the item's
quantity (`innerQuantity * requiredItem.quantity`), and an unknown name (or a
failed recursive resolution) aborts the whole loop with `none` (JS `null`). -/
def resolveList (cb : Cookbook) (inner : Recipe → Option (List (String × ℚ))) :
    List RequiredItem → List (String × ℚ) → Option (List (String × ℚ))
  | [], acc => some acc
  | item :: rest, acc =>
    match getEntry cb.ingredients item.name with
    | some _ => resolveList cb inner rest (addToMapEntry item.name item.quantity acc)
    | none =>
      match getEntry cb.recipes item.name with
      | none => none
      | some r =>
        match inner r with
        | none => none
        | some innerTable =>
          resolveList cb inner rest
            (innerTable.foldl (fun a e => addToMapEntry e.1 (e.2 * item.quantity) a) acc)

/-- Fuel-indexed unfolding of the recursion of `getRecipeIngredients`:
at fuel `f + 1` a nested recipe is resolved at fuel `f`, at fuel `0` any
attempt to recurse into a nested recipe yields `none`.  The JS function has no
fuel (it can diverge on cyclic stores); on acyclic data it agrees with this
definition for every fuel at least the required-item tree's height. -/
def resolveFuel (cb : Cookbook) : Nat → List RequiredItem → List (String × ℚ) →
    Option (List (String × ℚ))
  | 0 => resolveList cb (fun _ => none)
  | Nat.succ f => resolveList cb (fun r => resolveFuel cb f r.requiredItems [])

/-- Source `getRecipeIngredients`: run the required-item loop on an empty
accumulator map. -/
def getRecipeIngredients (cb : Cookbook) (fuel : Nat) (recipe : Recipe) :
    Option (List (String × ℚ)) :=
  resolveFuel cb fuel recipe.requiredItems []

/-- The `Summary` interface returned by `buildSummary`; `ingredients` is the
resolved table pushed entry by entry in iteration order. -/
structure Summary where
  name : String
  cookTime : ℚ
  ingredients : List (String × ℚ)
deriving DecidableEq, Repr

/-- The `summary.cookTime` accumulation loop of `buildSummary`:
`cookbook.ingredients.get(recipeIngredient)!.cookTime * quantity` summed over
the resolved table.  The non-null assertion `!` would crash at runtime on a
missing ingredient; that crash is modelled as `none` (and proved unreachable
for tables produced by `getRecipeIngredients`). -/
def sumCookTimes (cb : Cookbook) : List (String × ℚ) → Option ℚ
  | [] => some 0
  | e :: rest =>
    match getEntry cb.ingredients e.1 with
    | none => none
    | some ing =>
      match sumCookTimes cb rest with
      | none => none
      | some s => some (ing.cookTime * e.2 + s)

/-- Source `buildSummary`: resolve the recipe, propagate `null` on failure,
otherwise report name, total cook time and the table entries in order. -/
def buildSummary (cb : Cookbook) (fuel : Nat) (recipe : Recipe) : Option Summary :=
  match getRecipeIngredients cb fuel recipe with
  | none => none
  | some table =>
    match sumCookTimes cb table with
    | none => none
    | some ct => some ⟨recipe.name, ct, table⟩

/-- The four disjoint outcomes of the `GET /summary` handler (given a string
query, i.e. after the `typeof input !== "string"` guard). -/
inductive SummaryOutcome where
  | isIngredientError
  | notFoundError
  | unresolvableError
  | ok (s : Summary)
deriving DecidableEq, Repr

/-- Source `app.get("/summary")` on a string query `name`: reject a name held
by an ingredient, then look the recipe up, then build the summary. -/
def summarize (cb : Cookbook) (fuel : Nat) (name : String) : SummaryOutcome :=
  match getEntry cb.ingredients name with
  | some _ => SummaryOutcome.isIngredientError
  | none =>
    match getEntry cb.recipes name with
    | none => SummaryOutcome.notFoundError
    | some recipe =>
      match buildSummary cb fuel recipe with
      | none => SummaryOutcome.unresolvableError
      | some s => SummaryOutcome.ok s

/-- The `name` field of a cookbook entry. -/
def entryName : CookbookEntry → String
  | CookbookEntry.recipe r => r.name
  | CookbookEntry.ingredient i => i.name

/-- Outcome tags of the `POST /entry` handler (after schema validation). -/
inductive RegisterStatus where
  | ok
  | duplicateName
  | duplicateRequiredItem
deriving DecidableEq, Repr

/-- Source `app.post("/entry")` on a schema-valid entry: fail when either map
already holds the name; fail when a recipe's required-item names are not
pairwise distinct (the source compares `new Set(names).size` with
`names.length`); otherwise commit to the map selected by the `type` tag.
The returned cookbook is the store after the call: failures return before any
mutation, so they return `cb` itself. -/
def postEntry (cb : Cookbook) (e : CookbookEntry) : Cookbook × RegisterStatus :=
  if (getEntry cb.ingredients (entryName e)).isSome ∨
      (getEntry cb.recipes (entryName e)).isSome then
    (cb, RegisterStatus.duplicateName)
  else
    match e with
    | CookbookEntry.recipe r =>
      if (r.requiredItems.map RequiredItem.name).Nodup then
        ({ cb with recipes := setEntry cb.recipes r.name r }, RegisterStatus.ok)
      else
        (cb, RegisterStatus.duplicateRequiredItem)
    | CookbookEntry.ingredient i =>
      ({ cb with ingredients := setEntry cb.ingredients i.name i }, RegisterStatus.ok)

/-- Folding a sequence of `POST /entry` requests over a store; a failing
request leaves the store untouched and the sequence continues. -/
def runEntries (cb : Cookbook) : List CookbookEntry → Cookbook
  | [] => cb
  | e :: rest => runEntries (postEntry cb e).1 rest

/-- Source `cookbook.ingredients.has(n) || cookbook.recipes.has(n)`. -/
def hasName (cb : Cookbook) (n : String) : Bool :=
  (getEntry cb.ingredients n).isSome || (getEntry cb.recipes n).isSome

/-- Splitting a character list at separator characters (those satisfying `p`),
keeping possibly-empty chunks between consecutive separators, exactly as
JS `String.prototype.split` on a single-character class does.  The source
splits on `/\s+/`, i.e. runs of whitespace; a run of `k` separators here
produces `k - 1` empty chunks (plus a leading empty chunk for a leading
separator), all of which the pipeline's empty-word filter removes, so the two
readings agree after that filter. -/
def splitChunks (p : Char → Bool) : List Char → List (List Char)
  | [] => [[]]
  | c :: cs =>
    let r := splitChunks p cs
    if p c then [] :: r else (c :: r.headD []) :: r.tail

/-- The titlecase step of `parse_handwriting`:
`word.substring(0, 1).toUpperCase() + word.substring(1).toLowerCase()`. -/
def titlecaseWord : List Char → List Char
  | [] => []
  | c :: cs => c.toUpper :: cs.map Char.toLower

/-- The whole `parse_handwriting` pipeline, parameterized by the character
class `keep` that the per-word `replace` step retains (the only difference
between the two variants in the repository): replace hyphens and underscores
with spaces, split on whitespace runs, delete the characters not in `keep`
from each word, drop empty words, titlecase, and join with single spaces;
`null` when no word survives. -/
def parseWith (keep : Char → Bool) (recipeName : String) : Option String :=
  let replaced := recipeName.data.map (fun c => if c = '-' ∨ c = '_' then ' ' else c)
  let recipeWords :=
    (((splitChunks Char.isWhitespace replaced).map (List.filter keep)).filter
      (fun w => w.length > 0)).map titlecaseWord
  if recipeWords.isEmpty then none
  else some (String.mk (List.intercalate [' '] recipeWords))

/-- Source `parse_handwriting` of the complete variant (src/unnamed/part_000):
its per-word step is `word.replace(/[^a-zA-Z]/g, "")`, deleting every
character that is not an ASCII letter — digits included. -/
def parse_handwriting (recipeName : String) : Option String :=
  parseWith Char.isAlpha recipeName

/-- Source `parse_handwriting` of the template variant
(src/backend/ts_template/devdonalds.ts): its per-word step is
`word.replace(/[^a-zA-Z\d]/g, "")`, deleting every character that is neither
an ASCII letter nor a digit. -/
def parse_handwriting_devdonalds (recipeName : String) : Option String :=
  parseWith (fun c => c.isAlpha || c.isDigit) recipeName

/-- Transform described by the spec's words for the normalization helper:
collapse hyphens, underscores and every other non-alphanumeric character into
single spaces (so letters and digits are retained), titlecase the resulting
words, and return `null` exactly when the input normalizes to the empty
string.  Collapsing a character into a space means it acts as a word
separator, so the words are the maximal runs of alphanumeric characters. -/
def specNormalize (recipeName : String) : Option String :=
  let recipeWords :=
    ((splitChunks (fun c => !(c.isAlpha || c.isDigit)) recipeName.data).filter
      (fun w => w.length > 0)).map titlecaseWord
  if recipeWords.isEmpty then none
  else some (String.mk (List.intercalate [' '] recipeWords))

/-- All required-item quantities stored in the catalog's recipe map are
non-negative (the registration schema's `z.number().gte(0)` invariant). -/
def StoreQuantitiesNonneg (cb : Cookbook) : Prop :=
  ∀ n r, getEntry cb.recipes n = some r → ∀ it ∈ r.requiredItems, 0 ≤ it.quantity

/-- All cook times stored in the catalog's ingredient map are non-negative
(the registration schema's `z.number().gte(0)` invariant). -/
def StoreCookTimesNonneg (cb : Cookbook) : Prop :=
  ∀ n i, getEntry cb.ingredients n = some i → 0 ≤ i.cookTime

/-- Cross-mapping uniqueness: no name is a key of both catalog maps. -/
def NamesDisjoint (cb : Cookbook) : Prop :=
  ∀ n, ¬((getEntry cb.ingredients n).isSome = true ∧
    (getEntry cb.recipes n).isSome = true)

/-- A required-item list is `Unresolvable` when it (or, transitively, the
required-item list of a stored recipe it references) contains an item whose
name is neither a stored ingredient nor a stored recipe.  The recipe link of
`hd_recipe` only applies to items that are not ingredients, mirroring the
resolver's ingredient-first lookup order. -/
inductive Unresolvable (cb : Cookbook) : List RequiredItem → Prop where
  | hd_unknown {item : RequiredItem} {rest : List RequiredItem}
      (h1 : getEntry cb.ingredients item.name = none)
      (h2 : getEntry cb.recipes item.name = none) : Unresolvable cb (item :: rest)
  | hd_recipe {item : RequiredItem} {rest : List RequiredItem} {r : Recipe}
      (h1 : getEntry cb.ingredients item.name = none)
      (h2 : getEntry cb.recipes item.name = some r)
      (h3 : Unresolvable cb r.requiredItems) : Unresolvable cb (item :: rest)
  | tail {item : RequiredItem} {rest : List RequiredItem}
      (h : Unresolvable cb rest) : Unresolvable cb (item :: rest)

/-- Scenario A of the spec: ingredients egg (cookTime 5) and flour (cookTime 2)
plus the batter recipe (egg 2, flour 1), registered through `POST /entry`. -/
def scenarioA : Cookbook :=
  runEntries emptyCookbook
    [CookbookEntry.ingredient ⟨"egg", 5⟩,
     CookbookEntry.ingredient ⟨"flour", 2⟩,
     CookbookEntry.recipe ⟨"batter", [⟨"egg", 2⟩, ⟨"flour", 1⟩]⟩]

/-- Scenario B of the spec: the cake recipe (batter 3, egg 1) registered atop
Scenario A. -/
def scenarioB : Cookbook :=
  runEntries scenarioA [CookbookEntry.recipe ⟨"cake", [⟨"batter", 3⟩, ⟨"egg", 1⟩]⟩]

/-- Concrete store with one ingredient `i` and one sub-recipe `s` requiring
`i` at quantity 4, used to instantiate the universally quantified theorems. -/
def demoStore : Cookbook :=
  ⟨[("s", ⟨"s", [⟨"i", 4⟩]⟩)], [("i", ⟨"i", 1⟩)]⟩

/-- Concrete store whose recipes `r` and `sub` both reference the
never-registered name `ghost`. -/
def ghostStore : Cookbook :=
  ⟨[("r", ⟨"r", [⟨"ghost", 1⟩]⟩), ("sub", ⟨"sub", [⟨"ghost", 2⟩]⟩)], []⟩

/-- Concrete store with an `egg` ingredient and no recipes. -/
def eggStore : Cookbook :=
  ⟨[], [("egg", ⟨"egg", 5⟩)]⟩

/-- Concrete store holding just the empty recipe `e`. -/
def emptyRecipeStore : Cookbook :=
  ⟨[("e", ⟨"e", []⟩)], []⟩

/-! Association-map lemmas. -/

theorem getEntry_setEntry_self {α : Type} (m : List (String × α)) (k : String) (v : α) :
    getEntry (setEntry m k v) k = some v := by
  induction m with
  | nil => simp [setEntry, getEntry]
  | cons e rest ih =>
    obtain ⟨e1, e2⟩ := e
    by_cases h : e1 = k
    · simp [setEntry, getEntry, h]
    · simp [setEntry, getEntry, h, ih]

theorem getEntry_setEntry_ne {α : Type} (m : List (String × α)) (k k' : String) (v : α)
    (h : k' ≠ k) : getEntry (setEntry m k v) k' = getEntry m k' := by
  have h' : ¬(k = k') := fun hh => h hh.symm
  induction m with
  | nil => simp [setEntry, getEntry, h']
  | cons e rest ih =>
    obtain ⟨e1, e2⟩ := e
    by_cases he : e1 = k
    · subst he
      simp [setEntry, getEntry, h']
    · simp [setEntry, getEntry, he, ih]

theorem getEntry_eq_none_iff {α : Type} (m : List (String × α)) (k : String) :
    getEntry m k = none ↔ k ∉ m.map Prod.fst := by
  induction m with
  | nil => simp [getEntry]
  | cons e rest ih =>
    obtain ⟨e1, e2⟩ := e
    by_cases h : e1 = k
    · simp [getEntry, h]
    · have h' : ¬(k = e1) := fun hh => h hh.symm
      simp [getEntry, h, h', ih]

theorem getEntry_isSome_iff {α : Type} (m : List (String × α)) (k : String) :
    (getEntry m k).isSome = true ↔ k ∈ m.map Prod.fst := by
  rw [← Decidable.not_iff_not, ← getEntry_eq_none_iff m k]
  cases getEntry m k <;> simp

theorem getEntry_mem {α : Type} {m : List (String × α)} {k : String} {v : α}
    (h : getEntry m k = some v) : (k, v) ∈ m := by
  induction m with
  | nil => simp [getEntry] at h
  | cons e rest ih =>
    obtain ⟨e1, e2⟩ := e
    by_cases he : e1 = k
    · subst he
      have h2 : e2 = v := by simpa [getEntry] using h
      subst h2
      exact List.mem_cons_self _ _
    · simp only [getEntry, if_neg he] at h
      exact List.mem_cons_of_mem _ (ih h)

theorem setEntry_of_notMem {α : Type} {m : List (String × α)} {k : String} (v : α)
    (h : k ∉ m.map Prod.fst) : setEntry m k v = m ++ [(k, v)] := by
  induction m with
  | nil => simp [setEntry]
  | cons e rest ih =>
    obtain ⟨e1, e2⟩ := e
    simp only [List.map_cons, List.mem_cons, not_or] at h
    have h1 : ¬(e1 = k) := fun hh => h.1 hh.symm
    simp [setEntry, h1, ih h.2]

theorem mem_setEntry {α : Type} {m : List (String × α)} {k : String} {v : α} {e : String × α}
    (h : e ∈ setEntry m k v) : e = (k, v) ∨ e ∈ m := by
  induction m with
  | nil => simpa [setEntry] using h
  | cons f rest ih =>
    by_cases hf : f.1 = k
    · simp only [setEntry, if_pos hf] at h
      rcases List.mem_cons.mp h with h1 | h2
      · exact Or.inl h1
      · exact Or.inr (List.mem_cons_of_mem _ h2)
    · simp only [setEntry, if_neg hf] at h
      rcases List.mem_cons.mp h with h1 | h2
      · exact Or.inr (List.mem_cons.mpr (Or.inl h1))
      · rcases ih h2 with h3 | h4
        · exact Or.inl h3
        · exact Or.inr (List.mem_cons_of_mem _ h4)

theorem mem_map_fst_setEntry {α : Type} (m : List (String × α)) (k k' : String) (v : α) :
    k' ∈ (setEntry m k v).map Prod.fst ↔ k' = k ∨ k' ∈ m.map Prod.fst := by
  induction m with
  | nil => simp [setEntry]
  | cons e rest ih =>
    obtain ⟨e1, e2⟩ := e
    by_cases he : e1 = k
    · subst he
      simp [setEntry]
    · simp only [setEntry, if_neg he, List.map_cons, List.mem_cons, ih]
      tauto

theorem nodup_map_fst_setEntry {α : Type} {m : List (String × α)} (k : String) (v : α)
    (h : (m.map Prod.fst).Nodup) : ((setEntry m k v).map Prod.fst).Nodup := by
  induction m with
  | nil => simp [setEntry]
  | cons e rest ih =>
    obtain ⟨e1, e2⟩ := e
    simp only [List.map_cons, List.nodup_cons] at h
    by_cases he : e1 = k
    · subst he
      simpa [setEntry] using h
    · simp only [setEntry, if_neg he, List.map_cons, List.nodup_cons]
      refine ⟨fun hc => ?_, ih h.2⟩
      rcases (mem_map_fst_setEntry rest k e1 v).mp hc with h1 | h2
      · exact he h1
      · exact h.1 h2

theorem mem_map_fst_addToMapEntry (m : List (String × ℚ)) (k k' : String) (q : ℚ) :
    k' ∈ (addToMapEntry k q m).map Prod.fst ↔ k' = k ∨ k' ∈ m.map Prod.fst :=
  mem_map_fst_setEntry m k k' _

theorem nodup_map_fst_addToMapEntry {m : List (String × ℚ)} (k : String) (q : ℚ)
    (h : (m.map Prod.fst).Nodup) : ((addToMapEntry k q m).map Prod.fst).Nodup :=
  nodup_map_fst_setEntry k _ h

theorem mem_addToMapEntry {m : List (String × ℚ)} {k : String} {q : ℚ} {e : String × ℚ}
    (h : e ∈ addToMapEntry k q m) :
    e = (k, (getEntry m k).getD 0 + q) ∨ e ∈ m :=
  mem_setEntry h

theorem addToMapEntry_of_notMem {m : List (String × ℚ)} {k : String} (q : ℚ)
    (h : k ∉ m.map Prod.fst) : addToMapEntry k q m = m ++ [(k, q)] := by
  have hnone : getEntry m k = none := (getEntry_eq_none_iff m k).mpr h
  simp [addToMapEntry, hnone, setEntry_of_notMem _ h]

/-! Accumulator-fold lemmas. -/

theorem addToMapEntry_key_pred {m : List (String × ℚ)} {k : String} {q : ℚ}
    (K : String → Prop) (hK : K k) (hacc : ∀ e ∈ m, K e.1) :
    ∀ e ∈ addToMapEntry k q m, K e.1 := by
  intro e he
  rcases mem_addToMapEntry he with h | h
  · rw [h]
    exact hK
  · exact hacc e h

theorem nonneg_addToMapEntry {m : List (String × ℚ)} {k : String} {q : ℚ}
    (hm : ∀ e ∈ m, 0 ≤ e.2) (hq : 0 ≤ q) : ∀ e ∈ addToMapEntry k q m, 0 ≤ e.2 := by
  intro e he
  rcases mem_addToMapEntry he with h | h
  · rw [h]
    have h0 : 0 ≤ (getEntry m k).getD 0 := by
      cases heq : getEntry m k with
      | none => simp
      | some v => simpa using hm (k, v) (getEntry_mem heq)
    exact add_nonneg h0 hq
  · exact hm e h

theorem nodup_foldl_add (g : String × ℚ → ℚ) (T : List (String × ℚ)) :
    ∀ acc : List (String × ℚ), (acc.map Prod.fst).Nodup →
      (((T.foldl (fun a e => addToMapEntry e.1 (g e) a) acc).map Prod.fst).Nodup) := by
  induction T with
  | nil => intro acc h; simpa using h
  | cons e rest ih =>
    intro acc h
    simpa using ih _ (nodup_map_fst_addToMapEntry e.1 (g e) h)

theorem foldl_add_key_pred (K : String → Prop) (g : String × ℚ → ℚ)
    (T : List (String × ℚ)) :
    ∀ acc : List (String × ℚ), (∀ e ∈ T, K e.1) → (∀ e ∈ acc, K e.1) →
      ∀ e ∈ T.foldl (fun a e => addToMapEntry e.1 (g e) a) acc, K e.1 := by
  induction T with
  | nil => intro acc _ hacc; simpa using hacc
  | cons f rest ih =>
    intro acc hT hacc
    simp only [List.foldl_cons]
    refine ih _ (fun e he => hT e (List.mem_cons_of_mem _ he)) ?_
    exact addToMapEntry_key_pred K (hT f (List.mem_cons_self _ _)) hacc

theorem nonneg_foldl_add (g : String × ℚ → ℚ) (T : List (String × ℚ)) :
    ∀ acc : List (String × ℚ), (∀ e ∈ T, 0 ≤ g e) → (∀ e ∈ acc, 0 ≤ e.2) →
      ∀ e ∈ T.foldl (fun a e => addToMapEntry e.1 (g e) a) acc, 0 ≤ e.2 := by
  induction T with
  | nil => intro acc _ hacc; simpa using hacc
  | cons f rest ih =>
    intro acc hT hacc
    simp only [List.foldl_cons]
    refine ih _ (fun e he => hT e (List.mem_cons_of_mem _ he)) ?_
    exact nonneg_addToMapEntry hacc (hT f (List.mem_cons_self _ _))

theorem foldl_add_eq_append_map (g : String × ℚ → ℚ) (T : List (String × ℚ)) :
    ∀ acc : List (String × ℚ), (T.map Prod.fst).Nodup →
      (∀ k ∈ T.map Prod.fst, k ∉ acc.map Prod.fst) →
      T.foldl (fun a e => addToMapEntry e.1 (g e) a) acc =
        acc ++ T.map (fun e => (e.1, g e)) := by
  induction T with
  | nil => intro acc _ _; simp
  | cons e rest ih =>
    intro acc hnd hdisj
    have he : e.1 ∉ acc.map Prod.fst := hdisj e.1 (by simp)
    simp only [List.map_cons, List.nodup_cons] at hnd
    simp only [List.foldl_cons]
    rw [addToMapEntry_of_notMem (g e) he, ih (acc ++ [(e.1, g e)]) hnd.2 ?_]
    · simp
    · intro k hk
      simp only [List.map_append, List.map_cons, List.map_nil, List.mem_append,
        List.mem_singleton, not_or]
      exact ⟨fun hc => hdisj k (List.mem_cons_of_mem _ hk) hc,
        fun hc => hnd.1 (hc ▸ hk)⟩

/-! Unfolding equations for the required-item loop. -/

theorem resolveList_nil (cb : Cookbook) (inner : Recipe → Option (List (String × ℚ)))
    (acc : List (String × ℚ)) : resolveList cb inner [] acc = some acc := rfl

theorem resolveList_cons_ing {cb : Cookbook} {item : RequiredItem} {ing : Ingredient}
    (inner : Recipe → Option (List (String × ℚ))) (rest : List RequiredItem)
    (acc : List (String × ℚ)) (h : getEntry cb.ingredients item.name = some ing) :
    resolveList cb inner (item :: rest) acc =
      resolveList cb inner rest (addToMapEntry item.name item.quantity acc) := by
  simp [resolveList, h]

theorem resolveList_cons_unknown {cb : Cookbook} {item : RequiredItem}
    (inner : Recipe → Option (List (String × ℚ))) (rest : List RequiredItem)
    (acc : List (String × ℚ)) (h1 : getEntry cb.ingredients item.name = none)
    (h2 : getEntry cb.recipes item.name = none) :
    resolveList cb inner (item :: rest) acc = none := by
  simp [resolveList, h1, h2]

theorem resolveList_cons_rec_none {cb : Cookbook} {item : RequiredItem} {r : Recipe}
    {inner : Recipe → Option (List (String × ℚ))} (rest : List RequiredItem)
    (acc : List (String × ℚ)) (h1 : getEntry cb.ingredients item.name = none)
    (h2 : getEntry cb.recipes item.name = some r) (h3 : inner r = none) :
    resolveList cb inner (item :: rest) acc = none := by
  simp [resolveList, h1, h2, h3]

theorem resolveList_cons_rec_some {cb : Cookbook} {item : RequiredItem} {r : Recipe}
    {T : List (String × ℚ)} {inner : Recipe → Option (List (String × ℚ))}
    (rest : List RequiredItem) (acc : List (String × ℚ))
    (h1 : getEntry cb.ingredients item.name = none)
    (h2 : getEntry cb.recipes item.name = some r) (h3 : inner r = some T) :
    resolveList cb inner (item :: rest) acc =
      resolveList cb inner rest
        (T.foldl (fun a e => addToMapEntry e.1 (e.2 * item.quantity) a) acc) := by
  simp [resolveList, h1, h2, h3]

theorem resolveFuel_zero (cb : Cookbook) :
    resolveFuel cb 0 = resolveList cb (fun _ => none) := rfl

theorem resolveFuel_succ (cb : Cookbook) (f : Nat) :
    resolveFuel cb (f + 1) = resolveList cb (fun r => resolveFuel cb f r.requiredItems []) :=
  rfl

/-! Invariants of the resolver. -/

theorem resolveList_nodup {cb : Cookbook} {inner : Recipe → Option (List (String × ℚ))} :
    ∀ (items : List RequiredItem) (acc out : List (String × ℚ)),
      resolveList cb inner items acc = some out →
      (acc.map Prod.fst).Nodup → (out.map Prod.fst).Nodup := by
  intro items
  induction items with
  | nil =>
    intro acc out h hacc
    rw [resolveList_nil] at h
    cases h
    exact hacc
  | cons item rest ih =>
    intro acc out h hacc
    cases hi : getEntry cb.ingredients item.name with
    | some ing =>
      rw [resolveList_cons_ing inner rest acc hi] at h
      exact ih _ _ h (nodup_map_fst_addToMapEntry item.name item.quantity hacc)
    | none =>
      cases hr : getEntry cb.recipes item.name with
      | none =>
        rw [resolveList_cons_unknown inner rest acc hi hr] at h
        cases h
      | some r =>
        cases hin : inner r with
        | none =>
          rw [resolveList_cons_rec_none rest acc hi hr hin] at h
          cases h
        | some T =>
          rw [resolveList_cons_rec_some rest acc hi hr hin] at h
          exact ih _ _ h (nodup_foldl_add _ T acc hacc)

theorem resolveList_known {cb : Cookbook} {inner : Recipe → Option (List (String × ℚ))}
    (hinner : ∀ r T, inner r = some T →
      ∀ e ∈ T, (getEntry cb.ingredients e.1).isSome = true) :
    ∀ (items : List RequiredItem) (acc out : List (String × ℚ)),
      resolveList cb inner items acc = some out →
      (∀ e ∈ acc, (getEntry cb.ingredients e.1).isSome = true) →
      ∀ e ∈ out, (getEntry cb.ingredients e.1).isSome = true := by
  intro items
  induction items with
  | nil =>
    intro acc out h hacc
    rw [resolveList_nil] at h
    cases h
    exact hacc
  | cons item rest ih =>
    intro acc out h hacc
    cases hi : getEntry cb.ingredients item.name with
    | some ing =>
      rw [resolveList_cons_ing inner rest acc hi] at h
      refine ih _ _ h ?_
      exact addToMapEntry_key_pred (fun n => (getEntry cb.ingredients n).isSome = true)
        (by simp [hi]) hacc
    | none =>
      cases hr : getEntry cb.recipes item.name with
      | none =>
        rw [resolveList_cons_unknown inner rest acc hi hr] at h
        cases h
      | some r =>
        cases hin : inner r with
        | none =>
          rw [resolveList_cons_rec_none rest acc hi hr hin] at h
          cases h
        | some T =>
          rw [resolveList_cons_rec_some rest acc hi hr hin] at h
          exact ih _ _ h
            (foldl_add_key_pred (fun n => (getEntry cb.ingredients n).isSome = true)
              (fun e => e.2 * item.quantity) T acc (hinner r T hin) hacc)

theorem resolveList_nonneg {cb : Cookbook} {inner : Recipe → Option (List (String × ℚ))}
    (hinner : ∀ n r T, getEntry cb.recipes n = some r → inner r = some T →
      ∀ e ∈ T, 0 ≤ e.2) :
    ∀ (items : List RequiredItem) (acc out : List (String × ℚ)),
      resolveList cb inner items acc = some out →
      (∀ it ∈ items, 0 ≤ it.quantity) → (∀ e ∈ acc, 0 ≤ e.2) →
      ∀ e ∈ out, 0 ≤ e.2 := by
  intro items
  induction items with
  | nil =>
    intro acc out h _ hacc
    rw [resolveList_nil] at h
    cases h
    exact hacc
  | cons item rest ih =>
    intro acc out h hitems hacc
    have hq : 0 ≤ item.quantity := hitems item (List.mem_cons_self _ _)
    have hrest : ∀ it ∈ rest, 0 ≤ it.quantity :=
      fun it hit => hitems it (List.mem_cons_of_mem _ hit)
    cases hi : getEntry cb.ingredients item.name with
    | some ing =>
      rw [resolveList_cons_ing inner rest acc hi] at h
      exact ih _ _ h hrest (nonneg_addToMapEntry hacc hq)
    | none =>
      cases hr : getEntry cb.recipes item.name with
      | none =>
        rw [resolveList_cons_unknown inner rest acc hi hr] at h
        cases h
      | some r =>
        cases hin : inner r with
        | none =>
          rw [resolveList_cons_rec_none rest acc hi hr hin] at h
          cases h
        | some T =>
          rw [resolveList_cons_rec_some rest acc hi hr hin] at h
          refine ih _ _ h hrest (nonneg_foldl_add _ T acc ?_ hacc)
          exact fun e he => mul_nonneg (hinner item.name r T hr hin e he) hq

theorem resolveFuel_nodup {cb : Cookbook} {fuel : Nat} {items : List RequiredItem}
    {acc out : List (String × ℚ)} (h : resolveFuel cb fuel items acc = some out)
    (hacc : (acc.map Prod.fst).Nodup) : (out.map Prod.fst).Nodup := by
  cases fuel with
  | zero => exact resolveList_nodup items acc out h hacc
  | succ f => exact resolveList_nodup items acc out h hacc

theorem resolveFuel_known {cb : Cookbook} :
    ∀ (fuel : Nat) (items : List RequiredItem) (acc out : List (String × ℚ)),
      resolveFuel cb fuel items acc = some out →
      (∀ e ∈ acc, (getEntry cb.ingredients e.1).isSome = true) →
      ∀ e ∈ out, (getEntry cb.ingredients e.1).isSome = true := by
  intro fuel
  induction fuel with
  | zero => exact resolveList_known (fun r T h => by cases h)
  | succ f ihf =>
    exact resolveList_known (fun r T h => ihf r.requiredItems [] T h (by simp))

theorem resolveFuel_nonneg {cb : Cookbook} (hst : StoreQuantitiesNonneg cb) :
    ∀ (fuel : Nat) (items : List RequiredItem) (acc out : List (String × ℚ)),
      resolveFuel cb fuel items acc = some out →
      (∀ it ∈ items, 0 ≤ it.quantity) → (∀ e ∈ acc, 0 ≤ e.2) →
      ∀ e ∈ out, 0 ≤ e.2 := by
  intro fuel
  induction fuel with
  | zero => exact resolveList_nonneg (fun n r T _ h => by cases h)
  | succ f ihf =>
    exact resolveList_nonneg
      (fun n r T hr h => ihf r.requiredItems [] T h (hst n r hr) (by simp))

theorem getRecipeIngredients_nodup {cb : Cookbook} {fuel : Nat} {r : Recipe}
    {T : List (String × ℚ)} (h : getRecipeIngredients cb fuel r = some T) :
    (T.map Prod.fst).Nodup :=
  resolveFuel_nodup h (by simp)

theorem getRecipeIngredients_known {cb : Cookbook} {fuel : Nat} {r : Recipe}
    {T : List (String × ℚ)} (h : getRecipeIngredients cb fuel r = some T) :
    ∀ e ∈ T, (getEntry cb.ingredients e.1).isSome = true :=
  resolveFuel_known fuel r.requiredItems [] T h (by simp)

theorem getRecipeIngredients_nonneg {cb : Cookbook} {fuel : Nat} {r : Recipe}
    {T : List (String × ℚ)} (hst : StoreQuantitiesNonneg cb)
    (hr : ∀ it ∈ r.requiredItems, 0 ≤ it.quantity)
    (h : getRecipeIngredients cb fuel r = some T) : ∀ e ∈ T, 0 ≤ e.2 :=
  resolveFuel_nonneg hst fuel r.requiredItems [] T h hr (by simp)

/-! Summary-builder lemmas. -/

theorem sumCookTimes_eq_sum {cb : Cookbook} :
    ∀ T : List (String × ℚ), (∀ e ∈ T, (getEntry cb.ingredients e.1).isSome = true) →
      sumCookTimes cb T =
        some ((T.map
          (fun e => ((getEntry cb.ingredients e.1).elim 0 Ingredient.cookTime) * e.2)).sum) := by
  intro T
  induction T with
  | nil => intro _; simp [sumCookTimes]
  | cons e rest ih =>
    intro h
    have he := h e (List.mem_cons_self _ _)
    cases heq : getEntry cb.ingredients e.1 with
    | none => rw [heq] at he; simp at he
    | some ing =>
      have hrest := ih (fun f hf => h f (List.mem_cons_of_mem _ hf))
      simp [sumCookTimes, heq, hrest]

theorem sumCookTimes_nonneg {cb : Cookbook} (hct : StoreCookTimesNonneg cb) :
    ∀ T : List (String × ℚ), (∀ e ∈ T, 0 ≤ e.2) →
      ∀ s, sumCookTimes cb T = some s → 0 ≤ s := by
  intro T
  induction T with
  | nil =>
    intro _ s hs
    simp only [sumCookTimes, Option.some.injEq] at hs
    rw [← hs]
  | cons e rest ih =>
    intro h s hs
    cases heq : getEntry cb.ingredients e.1 with
    | none => simp [sumCookTimes, heq] at hs
    | some ing =>
      cases hrec : sumCookTimes cb rest with
      | none => simp [sumCookTimes, heq, hrec] at hs
      | some s' =>
        simp only [sumCookTimes, heq, hrec, Option.some.injEq] at hs
        rw [← hs]
        have h1 : 0 ≤ ing.cookTime := hct e.1 ing heq
        have h2 : 0 ≤ e.2 := h e (List.mem_cons_self _ _)
        have h3 : 0 ≤ s' := ih (fun f hf => h f (List.mem_cons_of_mem _ hf)) s' hrec
        exact add_nonneg (mul_nonneg h1 h2) h3

theorem resolveFuel_unresolvable {cb : Cookbook} {items : List RequiredItem}
    (h : Unresolvable cb items) :
    ∀ (fuel : Nat) (acc : List (String × ℚ)), resolveFuel cb fuel items acc = none := by
  induction h with
  | hd_unknown h1 h2 =>
    intro fuel acc
    cases fuel with
    | zero => rw [resolveFuel_zero]; exact resolveList_cons_unknown _ _ _ h1 h2
    | succ f => rw [resolveFuel_succ]; exact resolveList_cons_unknown _ _ _ h1 h2
  | hd_recipe h1 h2 h3 ih =>
    intro fuel acc
    cases fuel with
    | zero => rw [resolveFuel_zero]; exact resolveList_cons_rec_none _ _ h1 h2 rfl
    | succ f => rw [resolveFuel_succ]; exact resolveList_cons_rec_none _ _ h1 h2 (ih f [])
  | @tail item rest h ih =>
    intro fuel acc
    cases fuel with
    | zero =>
      rw [resolveFuel_zero]
      cases hi : getEntry cb.ingredients item.name with
      | some ing =>
        rw [resolveList_cons_ing _ _ _ hi, ← resolveFuel_zero]
        exact ih 0 _
      | none =>
        cases hr : getEntry cb.recipes item.name with
        | none => exact resolveList_cons_unknown _ _ _ hi hr
        | some r => exact resolveList_cons_rec_none _ _ hi hr rfl
    | succ f =>
      rw [resolveFuel_succ]
      cases hi : getEntry cb.ingredients item.name with
      | some ing =>
        rw [resolveList_cons_ing _ _ _ hi, ← resolveFuel_succ]
        exact ih (f + 1) _
      | none =>
        cases hr : getEntry cb.recipes item.name with
        | none => exact resolveList_cons_unknown _ _ _ hi hr
        | some r =>
          cases hin : resolveFuel cb f r.requiredItems [] with
          | none => exact resolveList_cons_rec_none _ _ hi hr hin
          | some T =>
            rw [resolveList_cons_rec_some _ _ hi hr hin, ← resolveFuel_succ]
            exact ih (f + 1) _

/-! Registrar lemmas. -/

theorem hasName_iff {cb : Cookbook} {n : String} :
    hasName cb n = true ↔
      ((getEntry cb.ingredients n).isSome = true ∨ (getEntry cb.recipes n).isSome = true) := by
  simp [hasName]

theorem postEntry_of_hasName {cb : Cookbook} {e : CookbookEntry}
    (h : hasName cb (entryName e) = true) :
    postEntry cb e = (cb, RegisterStatus.duplicateName) := by
  have h' : (getEntry cb.ingredients (entryName e)).isSome = true ∨
      (getEntry cb.recipes (entryName e)).isSome = true := hasName_iff.mp h
  unfold postEntry
  rw [if_pos (by exact_mod_cast h')]

theorem postEntry_ok_not_hasName {cb : Cookbook} {e : CookbookEntry}
    (h : (postEntry cb e).2 = RegisterStatus.ok) : hasName cb (entryName e) = false := by
  by_cases hn : hasName cb (entryName e) = true
  · rw [postEntry_of_hasName hn] at h
    cases h
  · simpa using hn

theorem postEntry_recipe_commit {cb : Cookbook} {r : Recipe}
    (h' : ¬((getEntry cb.ingredients r.name).isSome = true ∨
      (getEntry cb.recipes r.name).isSome = true))
    (hnd : (r.requiredItems.map RequiredItem.name).Nodup) :
    postEntry cb (CookbookEntry.recipe r) =
      ({ cb with recipes := setEntry cb.recipes r.name r }, RegisterStatus.ok) := by
  simp [postEntry, entryName, h', hnd]

theorem postEntry_recipe_dupitems {cb : Cookbook} {r : Recipe}
    (h' : ¬((getEntry cb.ingredients r.name).isSome = true ∨
      (getEntry cb.recipes r.name).isSome = true))
    (hnd : ¬(r.requiredItems.map RequiredItem.name).Nodup) :
    postEntry cb (CookbookEntry.recipe r) = (cb, RegisterStatus.duplicateRequiredItem) := by
  simp [postEntry, entryName, h', hnd]

theorem postEntry_ingredient_commit {cb : Cookbook} {i : Ingredient}
    (h' : ¬((getEntry cb.ingredients i.name).isSome = true ∨
      (getEntry cb.recipes i.name).isSome = true)) :
    postEntry cb (CookbookEntry.ingredient i) =
      ({ cb with ingredients := setEntry cb.ingredients i.name i }, RegisterStatus.ok) := by
  simp [postEntry, entryName, h']

theorem postEntry_ok_hasName_after {cb : Cookbook} {e : CookbookEntry}
    (h : (postEntry cb e).2 = RegisterStatus.ok) :
    hasName (postEntry cb e).1 (entryName e) = true := by
  have hn := postEntry_ok_not_hasName h
  have h' : ¬((getEntry cb.ingredients (entryName e)).isSome = true ∨
      (getEntry cb.recipes (entryName e)).isSome = true) := by
    intro hc
    rw [hasName_iff.mpr hc] at hn
    cases hn
  cases e with
  | recipe r =>
    simp only [entryName] at h' ⊢
    by_cases hnd : (r.requiredItems.map RequiredItem.name).Nodup
    · rw [postEntry_recipe_commit h' hnd]
      simp [hasName, getEntry_setEntry_self]
    · rw [postEntry_recipe_dupitems h' hnd] at h
      cases h
  | ingredient i =>
    simp only [entryName] at h' ⊢
    rw [postEntry_ingredient_commit h']
    simp [hasName, getEntry_setEntry_self]

theorem postEntry_hasName_mono {cb : Cookbook} {n : String} (e : CookbookEntry)
    (h : hasName cb n = true) : hasName (postEntry cb e).1 n = true := by
  by_cases h' : (getEntry cb.ingredients (entryName e)).isSome = true ∨
      (getEntry cb.recipes (entryName e)).isSome = true
  · rw [postEntry_of_hasName (hasName_iff.mpr h')]
    exact h
  · cases e with
    | recipe r =>
      simp only [entryName] at h'
      by_cases hnd : (r.requiredItems.map RequiredItem.name).Nodup
      · rw [postEntry_recipe_commit h' hnd]
        rcases hasName_iff.mp h with h1 | h1
        · simp [hasName, h1]
        · by_cases hk : n = r.name
          · simp [hasName, hk, getEntry_setEntry_self]
          · simp [hasName, getEntry_setEntry_ne _ _ _ _ hk, h1]
      · rw [postEntry_recipe_dupitems h' hnd]
        exact h
    | ingredient i =>
      simp only [entryName] at h'
      rw [postEntry_ingredient_commit h']
      rcases hasName_iff.mp h with h1 | h1
      · by_cases hk : n = i.name
        · simp [hasName, hk, getEntry_setEntry_self]
        · simp [hasName, getEntry_setEntry_ne _ _ _ _ hk, h1]
      · simp [hasName, h1]

theorem postEntry_fail_unchanged {cb : Cookbook} {e : CookbookEntry}
    (h : (postEntry cb e).2 ≠ RegisterStatus.ok) : (postEntry cb e).1 = cb := by
  by_cases h' : (getEntry cb.ingredients (entryName e)).isSome = true ∨
      (getEntry cb.recipes (entryName e)).isSome = true
  · rw [postEntry_of_hasName (hasName_iff.mpr h')]
  · cases e with
    | recipe r =>
      simp only [entryName] at h'
      by_cases hnd : (r.requiredItems.map RequiredItem.name).Nodup
      · exact absurd (by rw [postEntry_recipe_commit h' hnd]) h
      · rw [postEntry_recipe_dupitems h' hnd]
    | ingredient i =>
      simp only [entryName] at h'
      exact absurd (by rw [postEntry_ingredient_commit h']) h

theorem postEntry_dup_required {cb : Cookbook} {r : Recipe}
    (h : ¬(r.requiredItems.map RequiredItem.name).Nodup) :
    (postEntry cb (CookbookEntry.recipe r)).2 ≠ RegisterStatus.ok := by
  by_cases h' : (getEntry cb.ingredients r.name).isSome = true ∨
      (getEntry cb.recipes r.name).isSome = true
  · rw [postEntry_of_hasName (e := CookbookEntry.recipe r) (hasName_iff.mpr h')]
    simp
  · rw [postEntry_recipe_dupitems h' h]
    simp

theorem postEntry_disjoint {cb : Cookbook} (h : NamesDisjoint cb) (e : CookbookEntry) :
    NamesDisjoint (postEntry cb e).1 := by
  intro n
  by_cases h' : (getEntry cb.ingredients (entryName e)).isSome = true ∨
      (getEntry cb.recipes (entryName e)).isSome = true
  · rw [postEntry_of_hasName (hasName_iff.mpr h')]
    exact h n
  · cases e with
    | recipe r =>
      simp only [entryName] at h'
      by_cases hnd : (r.requiredItems.map RequiredItem.name).Nodup
      · rw [postEntry_recipe_commit h' hnd]
        intro hc
        by_cases hk : n = r.name
        · subst hk
          exact h' (Or.inl (by simpa using hc.1))
        · rw [show ({ cb with recipes := setEntry cb.recipes r.name r } : Cookbook).recipes
              = setEntry cb.recipes r.name r from rfl,
            getEntry_setEntry_ne _ _ _ _ hk] at hc
          exact h n hc
      · rw [postEntry_recipe_dupitems h' hnd]
        exact h n
    | ingredient i =>
      simp only [entryName] at h'
      rw [postEntry_ingredient_commit h']
      intro hc
      by_cases hk : n = i.name
      · subst hk
        exact h' (Or.inr (by simpa using hc.2))
      · rw [show ({ cb with ingredients := setEntry cb.ingredients i.name i } : Cookbook).ingredients
            = setEntry cb.ingredients i.name i from rfl,
          getEntry_setEntry_ne _ _ _ _ hk] at hc
        exact h n hc

theorem runEntries_disjoint :
    ∀ (es : List CookbookEntry) (cb : Cookbook), NamesDisjoint cb →
      NamesDisjoint (runEntries cb es) := by
  intro es
  induction es with
  | nil => intro cb h; exact h
  | cons e rest ih => intro cb h; exact ih _ (postEntry_disjoint h e)

/-! Normalization-helper lemmas. -/

theorem splitChunks_ne_nil (p : Char → Bool) : ∀ l : List Char, splitChunks p l ≠ [] := by
  intro l
  cases l with
  | nil => simp [splitChunks]
  | cons c cs =>
    simp only [splitChunks]
    cases hp : p c <;> simp

theorem flatten_splitChunks (p : Char → Bool) :
    ∀ l : List Char, (splitChunks p l).flatten = l.filter (fun c => !p c) := by
  intro l
  induction l with
  | nil => simp [splitChunks]
  | cons c cs ih =>
    cases hp : p c with
    | true => simp [splitChunks, hp, ih]
    | false =>
      cases hr : splitChunks p cs with
      | nil => exact absurd hr (splitChunks_ne_nil p cs)
      | cons h t =>
        rw [hr] at ih
        simp only [List.flatten_cons] at ih
        simp [splitChunks, hp, hr, ih]

theorem filterWords_eq_nil_iff (keep : Char → Bool)
    (hws : ∀ c, c.isWhitespace = true → keep c = false) (l : List Char) :
    ((splitChunks Char.isWhitespace l).map (List.filter keep)).filter
        (fun w => w.length > 0) = [] ↔ ∀ c ∈ l, keep c = false := by
  rw [List.filter_eq_nil_iff]
  constructor
  · intro h c hc
    cases hk : keep c with
    | false => rfl
    | true =>
      exfalso
      have hcw : c.isWhitespace = false := by
        cases hw : c.isWhitespace with
        | false => rfl
        | true => rw [hws c hw] at hk; cases hk
      have hcj : c ∈ (splitChunks Char.isWhitespace l).flatten := by
        rw [flatten_splitChunks]
        exact List.mem_filter.mpr ⟨hc, by simp [hcw]⟩
      rcases List.mem_flatten.mp hcj with ⟨chunk, hchunk, hcchunk⟩
      have hmem : c ∈ chunk.filter keep := List.mem_filter.mpr ⟨hcchunk, hk⟩
      have hlen : 0 < (chunk.filter keep).length :=
        List.length_pos.mpr (fun hnil => by rw [hnil] at hmem; cases hmem)
      exact h (chunk.filter keep) (List.mem_map.mpr ⟨chunk, hchunk, rfl⟩) (by simpa using hlen)
  · intro h w hw
    rcases List.mem_map.mp hw with ⟨chunk, hchunk, rfl⟩
    have hempty : chunk.filter keep = [] := by
      rw [List.filter_eq_nil_iff]
      intro c hcchunk
      have hcj : c ∈ (splitChunks Char.isWhitespace l).flatten :=
        List.mem_flatten.mpr ⟨chunk, hchunk, hcchunk⟩
      rw [flatten_splitChunks] at hcj
      rw [h c (List.mem_filter.mp hcj).1]
      simp
    simp [hempty]

theorem keep_replaced_iff (keep : Char → Bool) (hdash : keep '-' = false)
    (hus : keep '_' = false) (hsp : keep ' ' = false) (l : List Char) :
    (∀ c ∈ l.map (fun c => if c = '-' ∨ c = '_' then ' ' else c), keep c = false) ↔
      ∀ c ∈ l, keep c = false := by
  constructor
  · intro h c hc
    by_cases hcc : c = '-' ∨ c = '_'
    · rcases hcc with hcc | hcc <;> rw [hcc]
      · exact hdash
      · exact hus
    · have := h c (List.mem_map.mpr ⟨c, hc, by rw [if_neg hcc]⟩)
      exact this
  · intro h c hc
    rcases List.mem_map.mp hc with ⟨a, ha, rfl⟩
    by_cases hcc : a = '-' ∨ a = '_'
    · rw [if_pos hcc]
      exact hsp
    · rw [if_neg hcc]
      exact h a ha

theorem parseWith_eq_none_iff_words (keep : Char → Bool) (s : String) :
    parseWith keep s = none ↔
      ((splitChunks Char.isWhitespace
          (s.data.map (fun c => if c = '-' ∨ c = '_' then ' ' else c))).map
        (List.filter keep)).filter (fun w => w.length > 0) = [] := by
  simp only [parseWith]
  constructor
  · intro h
    split_ifs at h with hif
    simpa using hif
  · intro h
    rw [h]
    simp

theorem parseWith_eq_none_iff (keep : Char → Bool)
    (hws : ∀ c, c.isWhitespace = true → keep c = false)
    (hdash : keep '-' = false) (hus : keep '_' = false) (s : String) :
    parseWith keep s = none ↔ ∀ c ∈ s.data, keep c = false := by
  rw [parseWith_eq_none_iff_words, filterWords_eq_nil_iff keep hws,
    keep_replaced_iff keep hdash hus (hws ' ' (by decide))]

/-! Concrete evaluations of the scenario stores. -/

theorem scenarioA_eq :
    scenarioA = ⟨[("batter", ⟨"batter", [⟨"egg", 2⟩, ⟨"flour", 1⟩]⟩)],
      [("egg", ⟨"egg", 5⟩), ("flour", ⟨"flour", 2⟩)]⟩ := by
  have h1 : ("egg" : String) ≠ "flour" := by decide
  have h2 : ("flour" : String) ≠ "egg" := by decide
  have h3 : ("egg" : String) ≠ "batter" := by decide
  have h4 : ("batter" : String) ≠ "egg" := by decide
  have h5 : ("flour" : String) ≠ "batter" := by decide
  have h6 : ("batter" : String) ≠ "flour" := by decide
  simp [scenarioA, runEntries, postEntry, entryName, emptyCookbook, getEntry, setEntry,
    h1, h2, h3, h4, h5, h6]

theorem scenarioB_eq :
    scenarioB = ⟨[("batter", ⟨"batter", [⟨"egg", 2⟩, ⟨"flour", 1⟩]⟩),
        ("cake", ⟨"cake", [⟨"batter", 3⟩, ⟨"egg", 1⟩]⟩)],
      [("egg", ⟨"egg", 5⟩), ("flour", ⟨"flour", 2⟩)]⟩ := by
  have h1 : ("cake" : String) ≠ "egg" := by decide
  have h2 : ("cake" : String) ≠ "flour" := by decide
  have h3 : ("cake" : String) ≠ "batter" := by decide
  have h4 : ("batter" : String) ≠ "cake" := by decide
  have h5 : ("batter" : String) ≠ "egg" := by decide
  rw [scenarioB, scenarioA_eq]
  simp [runEntries, postEntry, entryName, getEntry, setEntry, h1, h2, h3, h4, h5]

/-! Claim theorems. -/

/-- C1: for every store, a recipe that requires an ingredient `x` directly at
quantity `a` and, via exactly one sub-recipe (required at quantity `b`) that
itself requires `x` at quantity `c`, resolves to the single accumulated entry
`a + b * c` for `x`; and in general `addToMapEntry` sums a new contribution
into the existing accumulator entry (read off at the entry's key) instead of
overwriting it. -/
theorem resolution_additivity (cb : Cookbook) (x s rname sname : String)
    (ingX : Ingredient) (a b c : ℚ) (fuel : Nat)
    (hx : getEntry cb.ingredients x = some ingX)
    (hsi : getEntry cb.ingredients s = none)
    (hsr : getEntry cb.recipes s = some ⟨sname, [⟨x, c⟩]⟩) :
    getRecipeIngredients cb (fuel + 1) ⟨rname, [⟨x, a⟩, ⟨s, b⟩]⟩ = some [(x, a + b * c)]
    ∧ ∀ (k : String) (q : ℚ) (m : List (String × ℚ)),
        getEntry (addToMapEntry k q m) k = some ((getEntry m k).getD 0 + q) := by
  have hxs : x ≠ s := by
    intro hh
    rw [hh, hsi] at hx
    cases hx
  constructor
  · cases fuel with
    | zero =>
      simp [getRecipeIngredients, resolveFuel, resolveList, addToMapEntry, getEntry,
        setEntry, hx, hsi, hsr, hxs, mul_comm]
    | succ f =>
      simp [getRecipeIngredients, resolveFuel, resolveList, addToMapEntry, getEntry,
        setEntry, hx, hsi, hsr, hxs, mul_comm]
  · intro k q m
    simp [addToMapEntry, getEntry_setEntry_self]

/-- C2: a recipe `R` that resolves to table `T` contributes, when required at
quantity `m` by a parent, exactly `T` with every quantity multiplied by `m`
(shown for a parent whose only required item is `R`); and on the concrete
Scenario B store, summarizing `cake` yields egg 7, flour 3 and cookTime 41. -/
theorem resolution_scaling :
    (∀ (cb : Cookbook) (fuel : Nat) (n pname : String) (m : ℚ) (R : Recipe)
        (T : List (String × ℚ)),
        getEntry cb.ingredients n = none →
        getEntry cb.recipes n = some R →
        getRecipeIngredients cb fuel R = some T →
        getRecipeIngredients cb (fuel + 1) ⟨pname, [⟨n, m⟩]⟩ =
          some (T.map (fun e => (e.1, e.2 * m)))) ∧
      summarize scenarioB 1 "cake" =
        SummaryOutcome.ok ⟨"cake", 41, [("egg", 7), ("flour", 3)]⟩ := by
  constructor
  · intro cb fuel n pname m R T hni hnr hT
    rw [getRecipeIngredients, resolveFuel_succ]
    rw [resolveList_cons_rec_some [] [] hni hnr (show resolveFuel cb fuel R.requiredItems []
      = some T from hT)]
    rw [resolveList_nil]
    rw [foldl_add_eq_append_map (fun e => e.2 * RequiredItem.quantity ⟨n, m⟩) T []
      (getRecipeIngredients_nodup hT) (by simp)]
    simp
  · have h1 : ("egg" : String) ≠ "cake" := by decide
    have h2 : ("flour" : String) ≠ "cake" := by decide
    have h3 : ("batter" : String) ≠ "cake" := by decide
    have h4 : ("egg" : String) ≠ "batter" := by decide
    have h5 : ("flour" : String) ≠ "batter" := by decide
    have h6 : ("egg" : String) ≠ "flour" := by decide
    have h7 : ("flour" : String) ≠ "egg" := by decide
    have h8 : ("batter" : String) ≠ "egg" := by decide
    have h9 : ("batter" : String) ≠ "flour" := by decide
    rw [scenarioB_eq]
    simp [summarize, buildSummary, getRecipeIngredients, resolveFuel, resolveList,
      addToMapEntry, getEntry, setEntry, sumCookTimes, h1, h2, h3, h4, h5, h6, h7, h8, h9]
    norm_num

/-- C3: resolution fails (for every fuel bound, returning the dataless `none`)
whenever any name in the transitive closure of the recipe's required items is
neither a stored ingredient nor a stored recipe; and a failed sub-resolution
propagates immediately — the remaining required items `rest` are never
examined. -/
theorem resolution_failure_propagation :
    (∀ (cb : Cookbook) (r : Recipe), Unresolvable cb r.requiredItems →
        ∀ fuel, getRecipeIngredients cb fuel r = none) ∧
      ∀ (cb : Cookbook) (fuel : Nat) (n : String) (q : ℚ) (sub : Recipe)
        (rest : List RequiredItem) (acc : List (String × ℚ)),
        getEntry cb.ingredients n = none → getEntry cb.recipes n = some sub →
        getRecipeIngredients cb fuel sub = none →
        resolveFuel cb (fuel + 1) (⟨n, q⟩ :: rest) acc = none := by
  constructor
  · intro cb r h fuel
    exact resolveFuel_unresolvable h fuel []
  · intro cb fuel n q sub rest acc h1 h2 h3
    rw [resolveFuel_succ]
    exact resolveList_cons_rec_none rest acc h1 h2 h3

/-- C4: starting from the empty catalog, after any sequence of registrations
no name is a key of both maps; moreover a name already present forces the
duplicate-name failure, a successful registration requires the name to be
absent and makes it present, and presence of any name is preserved by any
later registration — so no two successful registrations can use the same
name. -/
theorem registration_uniqueness :
    (∀ (es : List CookbookEntry) (n : String),
        ¬((getEntry (runEntries emptyCookbook es).ingredients n).isSome = true ∧
          (getEntry (runEntries emptyCookbook es).recipes n).isSome = true)) ∧
      (∀ (cb : Cookbook) (e : CookbookEntry), hasName cb (entryName e) = true →
        (postEntry cb e).2 = RegisterStatus.duplicateName) ∧
      (∀ (cb : Cookbook) (e : CookbookEntry), (postEntry cb e).2 = RegisterStatus.ok →
        hasName cb (entryName e) = false ∧
          hasName (postEntry cb e).1 (entryName e) = true) ∧
      ∀ (cb : Cookbook) (e : CookbookEntry) (n : String), hasName cb n = true →
        hasName (postEntry cb e).1 n = true := by
  refine ⟨?_, ?_, ?_, ?_⟩
  · intro es n
    exact runEntries_disjoint es emptyCookbook (fun _ => by simp [emptyCookbook, getEntry]) n
  · intro cb e h
    rw [postEntry_of_hasName h]
  · intro cb e h
    exact ⟨postEntry_ok_not_hasName h, postEntry_ok_hasName_after h⟩
  · intro cb e n h
    exact postEntry_hasName_mono e h

/-- C5: registering a recipe with two equally named required items never
succeeds, and every failing registration returns the store unchanged —
validation happens before any mutation. -/
theorem registration_validation_before_mutation :
    (∀ (cb : Cookbook) (r : Recipe), ¬(r.requiredItems.map RequiredItem.name).Nodup →
        (postEntry cb (CookbookEntry.recipe r)).2 ≠ RegisterStatus.ok) ∧
      ∀ (cb : Cookbook) (e : CookbookEntry), (postEntry cb e).2 ≠ RegisterStatus.ok →
        (postEntry cb e).1 = cb := by
  exact ⟨fun cb r h => postEntry_dup_required h,
    fun cb e h => postEntry_fail_unchanged h⟩

/-- C6: every name in a successfully resolved table is a key of the ingredient
map, so the non-null ingredient lookup of `buildSummary` cannot fail, and the
summary is the recipe's name, the table, and the cook-time sum
`Σ cookTime(name) * quantity` over the table's entries. -/
theorem summary_lookup_safety (cb : Cookbook) (fuel : Nat) (r : Recipe)
    (T : List (String × ℚ)) (h : getRecipeIngredients cb fuel r = some T) :
    (∀ e ∈ T, (getEntry cb.ingredients e.1).isSome = true) ∧
      buildSummary cb fuel r =
        some ⟨r.name,
          (T.map (fun e =>
            ((getEntry cb.ingredients e.1).elim 0 Ingredient.cookTime) * e.2)).sum,
          T⟩ := by
  have hk := getRecipeIngredients_known h
  refine ⟨hk, ?_⟩
  simp [buildSummary, h, sumCookTimes_eq_sum T hk]

/-- C7: on a string query the summarize endpoint returns the
name-is-an-ingredient failure whenever the ingredient map holds the name
(taking precedence over the recipe lookup), the not-found failure when
neither map holds it, and otherwise either the unresolvable failure (exactly
when `buildSummary` fails) or a summary. -/
theorem summarize_outcomes (cb : Cookbook) (fuel : Nat) (n : String) :
    ((getEntry cb.ingredients n).isSome = true →
        summarize cb fuel n = SummaryOutcome.isIngredientError) ∧
      (getEntry cb.ingredients n = none → getEntry cb.recipes n = none →
        summarize cb fuel n = SummaryOutcome.notFoundError) ∧
      ∀ r, getEntry cb.ingredients n = none → getEntry cb.recipes n = some r →
        (buildSummary cb fuel r = none ∧
            summarize cb fuel n = SummaryOutcome.unresolvableError) ∨
          ∃ s, buildSummary cb fuel r = some s ∧
            summarize cb fuel n = SummaryOutcome.ok s := by
  refine ⟨?_, ?_, ?_⟩
  · intro h
    cases hi : getEntry cb.ingredients n with
    | none => rw [hi] at h; cases h
    | some ing => simp [summarize, hi]
  · intro h1 h2
    simp [summarize, h1, h2]
  · intro r h1 h2
    cases hb : buildSummary cb fuel r with
    | none => exact Or.inl ⟨rfl, by simp [summarize, h1, h2, hb]⟩
    | some s => exact Or.inr ⟨s, rfl, by simp [summarize, h1, h2, hb]⟩

/-- C8: when every stored required-item quantity and cook time is non-negative
(as the registration schema guarantees) and the resolved recipe's own
quantities are non-negative, every accumulated quantity of a successfully
resolved table is non-negative, and so is the resulting summary's cook
time. -/
theorem resolution_nonneg (cb : Cookbook) (fuel : Nat) (r : Recipe)
    (T : List (String × ℚ)) (hq : StoreQuantitiesNonneg cb)
    (hct : StoreCookTimesNonneg cb)
    (hr : ∀ it ∈ r.requiredItems, 0 ≤ it.quantity)
    (h : getRecipeIngredients cb fuel r = some T) :
    (∀ e ∈ T, 0 ≤ e.2) ∧
      ∀ s, buildSummary cb fuel r = some s → 0 ≤ s.cookTime := by
  have hn := getRecipeIngredients_nonneg hq hr h
  refine ⟨hn, ?_⟩
  intro s hs
  simp only [buildSummary, h] at hs
  cases hsct : sumCookTimes cb T with
  | none => rw [hsct] at hs; cases hs
  | some ct =>
    rw [hsct] at hs
    cases hs
    exact sumCookTimes_nonneg hct T hn ct hsct

/-- C10: a stored recipe with an empty `requiredItems` list resolves to the
empty table at every fuel bound, its summary is `{name, cookTime 0, no
ingredients}`, and summarizing its name succeeds — never an error at the
public interface. -/
theorem empty_recipe_summary (cb : Cookbook) (fuel : Nat) (n rname : String)
    (h1 : getEntry cb.ingredients n = none)
    (h2 : getEntry cb.recipes n = some ⟨rname, []⟩) :
    getRecipeIngredients cb fuel ⟨rname, []⟩ = some [] ∧
      buildSummary cb fuel ⟨rname, []⟩ = some ⟨rname, 0, []⟩ ∧
      summarize cb fuel n = SummaryOutcome.ok ⟨rname, 0, []⟩ := by
  have hres : getRecipeIngredients cb fuel ⟨rname, []⟩ = some [] := by
    cases fuel with
    | zero => rfl
    | succ f => rfl
  have hsum : buildSummary cb fuel ⟨rname, []⟩ = some ⟨rname, 0, []⟩ := by
    simp [buildSummary, hres, sumCookTimes]
  exact ⟨hres, hsum, by simp [summarize, h1, h2, hsum]⟩

/-- C9 (counterexample): the helper does not collapse non-alphanumeric
characters into single spaces, and the part_000 variant does not retain
digits.  On input "123" the claimed normalization yields "123" but the code
returns null; on "a1@b" the claimed normalization yields "A1 B" while the
part_000 code returns "Ab" (digit deleted, "@" deleted rather than collapsed)
and the template variant returns "A1b". -/
theorem parse_handwriting_spec_mismatch :
    parse_handwriting "123" = none ∧ specNormalize "123" = some "123" ∧
      parse_handwriting "a1@b" = some "Ab" ∧
      parse_handwriting_devdonalds "a1@b" = some "A1b" ∧
      specNormalize "a1@b" = some "A1 B" ∧
      parse_handwriting "a1@b" ≠ specNormalize "a1@b" ∧
      parse_handwriting_devdonalds "a1@b" ≠ specNormalize "a1@b" := by
  refine ⟨?_, ?_, ?_, ?_, ?_, ?_, ?_⟩ <;> decide

/-- C9 (amended): `parse_handwriting` treats hyphens, underscores and
whitespace as word separators and deletes every other retained-class-external
character from a word instead of collapsing it into a space — the part_000
variant keeps only ASCII letters (digits deleted), the template variant keeps
letters and digits — and returns null exactly when no character of the
retained class occurs in the input; on the source's own sample input the two
variants produce the titlecased join of the surviving characters. -/
theorem parse_handwriting_null_iff :
    (∀ s : String, parse_handwriting s = none ↔ ∀ c ∈ s.data, c.isAlpha = false) ∧
      (∀ s : String, parse_handwriting_devdonalds s = none ↔
        ∀ c ∈ s.data, (c.isAlpha || c.isDigit) = false) ∧
      parse_handwriting "  Riz@z RISO00tto!" = some "Rizz Risotto" ∧
      parse_handwriting_devdonalds "  Riz@z RISO00tto!" = some "Rizz Riso00tto" := by
  have hws1 : ∀ c : Char, c.isWhitespace = true → c.isAlpha = false := by
    intro c h
    have hc : c = ' ' ∨ c = '\t' ∨ c = '\r' ∨ c = '\n' := by
      simpa [Char.isWhitespace, or_assoc] using h
    rcases hc with rfl | rfl | rfl | rfl <;> decide
  have hws2 : ∀ c : Char, c.isWhitespace = true → (c.isAlpha || c.isDigit) = false := by
    intro c h
    have hc : c = ' ' ∨ c = '\t' ∨ c = '\r' ∨ c = '\n' := by
      simpa [Char.isWhitespace, or_assoc] using h
    rcases hc with rfl | rfl | rfl | rfl <;> decide
  refine ⟨?_, ?_, ?_, ?_⟩
  · intro s
    exact parseWith_eq_none_iff Char.isAlpha hws1 (by decide) (by decide) s
  · intro s
    exact parseWith_eq_none_iff (fun c => c.isAlpha || c.isDigit) hws2
      (by decide) (by decide) s
  · decide
  · decide

/-! Witnesses: the universally quantified claim theorems applied at concrete
stores, with every hypothesis discharged by evaluation. -/

/-- Witness for C1 at the demo store: 2 direct plus 3 times 4 via the
sub-recipe. -/
theorem resolution_additivity_witness :
    getRecipeIngredients demoStore 1 ⟨"r", [⟨"i", 2⟩, ⟨"s", 3⟩]⟩ =
      some [("i", 2 + 3 * 4)] :=
  (resolution_additivity demoStore "i" "s" "r" "s" ⟨"i", 1⟩ 2 3 4 0 rfl rfl rfl).1

/-- Witness for C2 at the demo store: the sub-recipe's table scaled by 5. -/
theorem resolution_scaling_witness :
    getRecipeIngredients demoStore 1 ⟨"p", [⟨"s", 5⟩]⟩ =
      some ([("i", (0 : ℚ) + 4)].map (fun e => (e.1, e.2 * 5))) :=
  resolution_scaling.1 demoStore 0 "s" "p" 5 ⟨"s", [⟨"i", 4⟩]⟩ [("i", 0 + 4)]
    rfl rfl rfl

/-- Witness for C3 at the ghost store: a recipe referencing the unregistered
name `ghost` fails at every fuel bound, and the failure of the sub-recipe
`sub` aborts the parent before its remaining items. -/
theorem resolution_failure_propagation_witness :
    getRecipeIngredients ghostStore 7 ⟨"r", [⟨"ghost", 1⟩]⟩ = none ∧
      resolveFuel ghostStore (0 + 1) [⟨"sub", 1⟩, ⟨"x", 9⟩] [] = none :=
  ⟨resolution_failure_propagation.1 ghostStore ⟨"r", [⟨"ghost", 1⟩]⟩
      (Unresolvable.hd_unknown rfl rfl) 7,
    resolution_failure_propagation.2 ghostStore 0 "sub" 1 ⟨"sub", [⟨"ghost", 2⟩]⟩
      [⟨"x", 9⟩] [] rfl rfl
      (resolution_failure_propagation.1 ghostStore ⟨"sub", [⟨"ghost", 2⟩]⟩
        (Unresolvable.hd_unknown rfl rfl) 0)⟩

/-- Witness for C4: disjointness after a sequence retrying the name `egg`,
the duplicate-name failure on the egg store, a fresh success, and
monotonicity of name presence. -/
theorem registration_uniqueness_witness :
    (¬((getEntry (runEntries emptyCookbook
            [CookbookEntry.ingredient ⟨"egg", 5⟩,
              CookbookEntry.recipe ⟨"egg", []⟩]).ingredients "egg").isSome = true ∧
        (getEntry (runEntries emptyCookbook
            [CookbookEntry.ingredient ⟨"egg", 5⟩,
              CookbookEntry.recipe ⟨"egg", []⟩]).recipes "egg").isSome = true)) ∧
      (postEntry eggStore (CookbookEntry.ingredient ⟨"egg", 9⟩)).2 =
        RegisterStatus.duplicateName ∧
      (hasName emptyCookbook "egg" = false ∧
        hasName (postEntry emptyCookbook (CookbookEntry.ingredient ⟨"egg", 5⟩)).1
          "egg" = true) ∧
      hasName (postEntry eggStore (CookbookEntry.recipe ⟨"cake", []⟩)).1 "egg" = true :=
  ⟨registration_uniqueness.1
      [CookbookEntry.ingredient ⟨"egg", 5⟩, CookbookEntry.recipe ⟨"egg", []⟩] "egg",
    registration_uniqueness.2.1 eggStore (CookbookEntry.ingredient ⟨"egg", 9⟩) rfl,
    registration_uniqueness.2.2.1 emptyCookbook (CookbookEntry.ingredient ⟨"egg", 5⟩) rfl,
    registration_uniqueness.2.2.2 eggStore (CookbookEntry.recipe ⟨"cake", []⟩) "egg" rfl⟩

/-- Witness for C5: a recipe with `egg` required twice is rejected and the
store is unchanged. -/
theorem registration_validation_witness :
    (postEntry emptyCookbook
        (CookbookEntry.recipe ⟨"dup", [⟨"egg", 1⟩, ⟨"egg", 2⟩]⟩)).2 ≠
        RegisterStatus.ok ∧
      (postEntry emptyCookbook
        (CookbookEntry.recipe ⟨"dup", [⟨"egg", 1⟩, ⟨"egg", 2⟩]⟩)).1 = emptyCookbook :=
  ⟨registration_validation_before_mutation.1 emptyCookbook
      ⟨"dup", [⟨"egg", 1⟩, ⟨"egg", 2⟩]⟩ (by decide),
    registration_validation_before_mutation.2 emptyCookbook
      (CookbookEntry.recipe ⟨"dup", [⟨"egg", 1⟩, ⟨"egg", 2⟩]⟩)
      (registration_validation_before_mutation.1 emptyCookbook
        ⟨"dup", [⟨"egg", 1⟩, ⟨"egg", 2⟩]⟩ (by decide))⟩

/-- Witness for C6 at the egg store: the summary of a recipe requiring two
eggs, with the cook-time sum taken over the resolved table. -/
theorem summary_lookup_safety_witness :
    buildSummary eggStore 0 ⟨"b", [⟨"egg", 2⟩]⟩ =
      some ⟨"b",
        (([("egg", (0 : ℚ) + 2)]).map (fun e =>
          ((getEntry eggStore.ingredients e.1).elim 0 Ingredient.cookTime) * e.2)).sum,
        [("egg", 0 + 2)]⟩ :=
  (summary_lookup_safety eggStore 0 ⟨"b", [⟨"egg", 2⟩]⟩ [("egg", 0 + 2)] rfl).2

/-- Witness for C7 at the egg store: summarizing the ingredient name and an
unregistered name. -/
theorem summarize_outcomes_witness :
    summarize eggStore 1 "egg" = SummaryOutcome.isIngredientError ∧
      summarize eggStore 1 "nope" = SummaryOutcome.notFoundError :=
  ⟨(summarize_outcomes eggStore 1 "egg").1 rfl,
    (summarize_outcomes eggStore 1 "nope").2.1 rfl rfl⟩

/-- Witness for C8 at the egg store: the cook time of the two-egg summary is
non-negative. -/
theorem resolution_nonneg_witness :
    0 ≤ (⟨"b", 5 * ((0 : ℚ) + 2) + 0, [("egg", (0 : ℚ) + 2)]⟩ : Summary).cookTime :=
  (resolution_nonneg eggStore 0 ⟨"b", [⟨"egg", 2⟩]⟩ [("egg", 0 + 2)]
      (by intro n r h; simp [getEntry, eggStore] at h)
      (by
        intro n i h
        simp only [eggStore, getEntry] at h
        split at h
        · cases h
          norm_num
        · cases h)
      (by
        intro it hit
        simp only [List.mem_singleton] at hit
        rw [hit]
        norm_num)
      rfl).2
    ⟨"b", 5 * ((0 : ℚ) + 2) + 0, [("egg", (0 : ℚ) + 2)]⟩ rfl

/-- Witness for C10: the empty recipe `e` resolves, summarizes to cook time 0,
and its name summarizes successfully. -/
theorem empty_recipe_summary_witness :
    getRecipeIngredients emptyRecipeStore 3 ⟨"e", []⟩ = some [] ∧
      buildSummary emptyRecipeStore 3 ⟨"e", []⟩ = some ⟨"e", 0, []⟩ ∧
      summarize emptyRecipeStore 3 "e" = SummaryOutcome.ok ⟨"e", 0, []⟩ :=
  empty_recipe_summary emptyRecipeStore 3 "e" "e" rfl rfl

/-- Witness for C9 (amended): an input with no letters normalizes to null. -/
theorem parse_handwriting_null_iff_witness :
    parse_handwriting "--- ---" = none :=
  (parse_handwriting_null_iff.1 "--- ---").mpr (by decide)

end Devdonalds

